import Mathlib

/-!
Verification of the finetuner documentation repository.

The repository consists of tutorial notebooks (CLIP, multilingual CLIP,
BERT, ResNet50, PointNet++), a walkthrough document `run-job.md`, and two
GitHub Actions workflow files (`ci.yml`, `remote-ci.yml`).  This file
embeds the observable behaviour of those artifacts: the documented run
lifecycle, the gate jobs and test-matrix pipelines of the workflows, the
API-call sequences of the notebooks, the log-monitoring loop, the
name-binding environment of the PointNet++ notebook, and the
`plot_matches` helper of the multilingual CLIP notebook.
-/

namespace Finetuner

/-! ### Run status lifecycle (docs/walkthrough/run-job.md)

The walkthrough documents the status of a `Run`:
1. CREATED: the run has been created and submitted to the job queue.
2. STARTED: the job is in progress.
3. FINISHED: the job finished successfully.
4. FAILED: the job failed.
The transitions themselves happen server-side; the model below is the
transition system described by that documentation. -/

inductive RunStatus
  | created
  | started
  | finished
  | failed
deriving DecidableEq, Repr

/-- Modelled from the spec: `finetuner.fit` submits a job and the walkthrough
shows the freshly returned run printing status `CREATED`.  The server-side
code that creates runs is not part of this repository. -/
def initialStatus : RunStatus := RunStatus.created

/-- Modelled from the spec: the statuses a run in a given status may move to
next, following the numbered lifecycle of `run-job.md` (CREATED, then
STARTED, then FINISHED on success or FAILED on failure).  The server-side
transition code is not part of this repository. -/
def runNext : RunStatus → List RunStatus
  | RunStatus.created => [RunStatus.started]
  | RunStatus.started => [RunStatus.finished, RunStatus.failed]
  | RunStatus.finished => []
  | RunStatus.failed => []

/-- A status is terminal when no further transition leaves it. -/
def terminalStatus (s : RunStatus) : Bool := (runNext s).isEmpty

/-- A list of statuses is a valid trace when each consecutive pair is an
allowed transition. -/
def validTrace : List RunStatus → Bool
  | [] => true
  | [_] => true
  | a :: b :: rest => (runNext a).contains b && validTrace (b :: rest)

/-- C1: the observable status of a run follows the lifecycle
CREATED → STARTED → FINISHED | FAILED.  A run starts in CREATED, the only
transition out of CREATED is to STARTED, the only transitions out of
STARTED are to FINISHED or FAILED, both of which are terminal; hence every
valid trace from the initial status is an initial segment of
[CREATED, STARTED, FINISHED] or of [CREATED, STARTED, FAILED]. -/
theorem run_lifecycle :
    initialStatus = RunStatus.created ∧
    runNext RunStatus.created = [RunStatus.started] ∧
    runNext RunStatus.started = [RunStatus.finished, RunStatus.failed] ∧
    terminalStatus RunStatus.finished = true ∧
    terminalStatus RunStatus.failed = true ∧
    ∀ t : List RunStatus, validTrace (RunStatus.created :: t) = true →
      t = [] ∨ t = [RunStatus.started] ∨
      t = [RunStatus.started, RunStatus.finished] ∨
      t = [RunStatus.started, RunStatus.failed] := by
  refine ⟨rfl, rfl, rfl, rfl, rfl, ?_⟩
  intro t ht
  match t with
  | [] => exact Or.inl rfl
  | b :: rest =>
    cases b with
    | started =>
      match rest with
      | [] => exact Or.inr (Or.inl rfl)
      | c :: rest2 =>
        cases c with
        | finished =>
          match rest2 with
          | [] => exact Or.inr (Or.inr (Or.inl rfl))
          | d :: rest3 => simp [validTrace, runNext] at ht
        | failed =>
          match rest2 with
          | [] => exact Or.inr (Or.inr (Or.inr rfl))
          | d :: rest3 => simp [validTrace, runNext] at ht
        | created => simp [validTrace, runNext] at ht
        | started => simp [validTrace, runNext] at ht
    | created => simp [validTrace, runNext] at ht
    | finished => simp [validTrace, runNext] at ht
    | failed => simp [validTrace, runNext] at ht

/-- Witness for C1: the trace CREATED, STARTED, FINISHED is valid and is
recognised by the lifecycle theorem. -/
theorem run_lifecycle_witness :
    validTrace (RunStatus.created :: [RunStatus.started, RunStatus.finished]) = true ∧
    ([RunStatus.started, RunStatus.finished] = ([] : List RunStatus) ∨
     [RunStatus.started, RunStatus.finished] = [RunStatus.started] ∨
     [RunStatus.started, RunStatus.finished] = [RunStatus.started, RunStatus.finished] ∨
     [RunStatus.started, RunStatus.finished] = [RunStatus.started, RunStatus.failed]) :=
  ⟨by decide, run_lifecycle.2.2.2.2.2 [RunStatus.started, RunStatus.finished] (by decide)⟩

/-! ### CI gate jobs (`ci.yml` job `success-all-test`, `remote-ci.yml` job
`success-tests`)

Both workflows end with a gate job guarded by `if: always()` whose steps
are: the `technote-space/workflow-conclusion-action` (which aggregates the
conclusions of the jobs of the workflow run into the environment variable
`WORKFLOW_CONCLUSION`), a step `Check Failure` running `exit 1` under
`if: env.WORKFLOW_CONCLUSION == 'failure'`, and a step `Success` running
`echo "All Done"` under `if: success()`. -/

inductive Conclusion
  | success
  | failure
  | cancelled
  | skipped
deriving DecidableEq, Repr

/-- Aggregation performed by `technote-space/workflow-conclusion-action`:
the workflow conclusion is `failure` as soon as one job concluded
`failure`, otherwise `cancelled` if one was cancelled, otherwise `success`
if one succeeded, otherwise `skipped`. -/
def workflowConclusion (results : List Conclusion) : Conclusion :=
  if results.contains Conclusion.failure then Conclusion.failure
  else if results.contains Conclusion.cancelled then Conclusion.cancelled
  else if results.contains Conclusion.success then Conclusion.success
  else Conclusion.skipped

/-- The `if:` condition of a gate-job step.  A plain expression such as
`env.WORKFLOW_CONCLUSION == 'failure'` carries an implicit `success()`
conjunct; `successFn` is the explicit `${{ success() }}`; `noCond` is a
step without an `if:` key (which also runs only while the job is
succeeding). -/
inductive StepCond
  | envConclusionIsFailure
  | successFn
  | noCond
deriving DecidableEq, Repr

/-- One step of a gate job: its condition and the exit code of its `run`
command when executed. -/
structure GateStep where
  cond : StepCond
  exitCode : Nat
deriving DecidableEq, Repr

/-- Whether a step condition holds, given the aggregated workflow
conclusion in `WORKFLOW_CONCLUSION` and whether all previous steps of the
job succeeded. -/
def condHolds : StepCond → Conclusion → Bool → Bool
  | StepCond.envConclusionIsFailure, wc, ok => ok && decide (wc = Conclusion.failure)
  | StepCond.successFn, _, ok => ok
  | StepCond.noCond, _, ok => ok

/-- Run the steps of a gate job in order: a step executes when its
condition holds, and the job is failing from the first executed step that
exits nonzero; a skipped step leaves the job status unchanged. -/
def runGateSteps (wc : Conclusion) : List GateStep → Bool → Bool
  | [], ok => ok
  | s :: rest, ok =>
    if condHolds s.cond wc ok then
      runGateSteps wc rest (ok && decide (s.exitCode = 0))
    else
      runGateSteps wc rest ok

/-- Conclusion of a gate job from the aggregated workflow conclusion. -/
def gateJobConclusion (wc : Conclusion) (steps : List GateStep) : Conclusion :=
  if runGateSteps wc steps true then Conclusion.success else Conclusion.failure

/-- Steps of the `success-all-test` job of `ci.yml`: the
workflow-conclusion action, `Check Failure` (`run: exit 1` under
`if: env.WORKFLOW_CONCLUSION == 'failure'`) and `Success`
(`run: echo "All Done"` under `if: success()`). -/
def successAllTestSteps : List GateStep :=
  [⟨StepCond.noCond, 0⟩,
   ⟨StepCond.envConclusionIsFailure, 1⟩,
   ⟨StepCond.successFn, 0⟩]

/-- Steps of the `success-tests` job of `remote-ci.yml`; the YAML is
step-for-step identical to the `success-all-test` job of `ci.yml`. -/
def successTestsSteps : List GateStep :=
  [⟨StepCond.noCond, 0⟩,
   ⟨StepCond.envConclusionIsFailure, 1⟩,
   ⟨StepCond.successFn, 0⟩]

/-- Whether a job with the given `if:` guard runs, given the conclusions
of the jobs it `needs`: `always()` makes it run unconditionally, while the
default guard requires every needed job to have succeeded. -/
def jobRuns (hasAlwaysGuard : Bool) (needed : List Conclusion) : Bool :=
  hasAlwaysGuard || needed.all (fun c => c = Conclusion.success)

/-- Outcome of the `success-all-test` gate of `ci.yml` as a function of
the conclusions of the jobs of the workflow run. -/
def successAllTest (results : List Conclusion) : Conclusion :=
  gateJobConclusion (workflowConclusion results) successAllTestSteps

/-- Outcome of the `success-tests` gate of `remote-ci.yml` as a function
of the conclusions of the jobs of the workflow run. -/
def successTests (results : List Conclusion) : Conclusion :=
  gateJobConclusion (workflowConclusion results) successTestsSteps

lemma gateJobConclusion_eq (wc : Conclusion) :
    gateJobConclusion wc successAllTestSteps =
      (if wc = Conclusion.failure then Conclusion.failure
       else Conclusion.success) := by
  cases wc <;> rfl

lemma workflowConclusion_eq_failure_iff (results : List Conclusion) :
    workflowConclusion results = Conclusion.failure ↔
      Conclusion.failure ∈ results := by
  unfold workflowConclusion
  by_cases h : results.contains Conclusion.failure = true
  · simp only [h, if_true]
    simpa using h
  · simp only [Bool.not_eq_true] at h
    have hm : Conclusion.failure ∉ results := by simpa using h
    simp only [h, Bool.false_eq_true, if_false]
    constructor
    · intro hw
      exfalso
      by_cases hc : Conclusion.cancelled ∈ results <;>
        by_cases hsx : Conclusion.success ∈ results <;>
        simp [hc, hsx] at hw
    · intro hw
      exact absurd hw hm

/-- C2: both gate jobs run under `if: always()` hence regardless of
upstream outcomes; each concludes `failure` exactly when the aggregated
workflow conclusion is `failure`, which happens exactly when some job of
the workflow run failed, and concludes `success` otherwise. -/
theorem gate_jobs_block_merge_iff_failure (results : List Conclusion) :
    jobRuns true results = true ∧
    (successAllTest results = Conclusion.failure ↔
      workflowConclusion results = Conclusion.failure) ∧
    (successTests results = Conclusion.failure ↔
      workflowConclusion results = Conclusion.failure) ∧
    (successAllTest results = Conclusion.failure ↔
      Conclusion.failure ∈ results) ∧
    (successAllTest results ≠ Conclusion.failure →
      successAllTest results = Conclusion.success) ∧
    (successTests results ≠ Conclusion.failure →
      successTests results = Conclusion.success) := by
  have hsteps : successTests results = successAllTest results := rfl
  have h1 := gateJobConclusion_eq (workflowConclusion results)
  have h2 := workflowConclusion_eq_failure_iff results
  have key : successAllTest results = Conclusion.failure ↔
      workflowConclusion results = Conclusion.failure := by
    unfold successAllTest
    rw [h1]
    by_cases hw : workflowConclusion results = Conclusion.failure <;>
      simp [hw]
  refine ⟨by simp [jobRuns], key, by rw [hsteps]; exact key,
    key.trans h2, ?_, ?_⟩
  · intro hne
    unfold successAllTest at hne ⊢
    rw [h1] at hne ⊢
    by_cases hw : workflowConclusion results = Conclusion.failure <;>
      simp [hw] at hne ⊢
  · intro hne
    rw [hsteps] at hne ⊢
    unfold successAllTest at hne ⊢
    rw [h1] at hne ⊢
    by_cases hw : workflowConclusion results = Conclusion.failure <;>
      simp [hw] at hne ⊢

/-- Witness for C2: with an upstream failure among [success, failure] the
gates conclude failure; evaluated at that concrete input. -/
theorem gate_jobs_block_merge_iff_failure_witness :
    successAllTest [Conclusion.success, Conclusion.failure] = Conclusion.failure ∧
    successTests [Conclusion.success, Conclusion.failure] = Conclusion.failure ∧
    successAllTest [Conclusion.success] = Conclusion.success := by
  have h := gate_jobs_block_merge_iff_failure [Conclusion.success, Conclusion.failure]
  have h2 := gate_jobs_block_merge_iff_failure [Conclusion.success]
  refine ⟨h.2.2.2.1.mpr (by decide), ?_, ?_⟩
  · exact h.2.2.1.mpr (by decide)
  · exact h2.2.2.2.2.1 (by decide)

/-! ### prep-testbed test matrices (`remote-ci.yml`)

The `prep-testbed` job gathers test paths from the checked-out
`finetuner-core` tree with the shell pipelines

  find 'tests' -name 'test_*.py' | xargs grep -l 'def test_'
    | xargs dirname | sort -u                        (core matrix)
  find 'tests' -name 'test_*.py' | xargs grep -l 'def test_'
    | xargs grep -l 'pytest.mark.gpu' | xargs dirname | sort -u   (CUDA)

A source file is modelled by its directory (as printed by `dirname`), its
base name, and the list of the fixed grep patterns its text contains. -/

structure SrcFile where
  dir : String
  base : String
  contents : List String
deriving DecidableEq, Repr

/-- Whether the first character list begins with the second. -/
def beginsList : List Char → List Char → Bool
  | _, [] => true
  | [], _ :: _ => false
  | a :: as, b :: bs => (a == b) && beginsList as bs

/-- Whether the string `s` starts with the string `p`. -/
def strBegins (s p : String) : Bool := beginsList s.data p.data

/-- Whether the string `s` ends with the string `p`. -/
def strEnds (s p : String) : Bool := beginsList s.data.reverse p.data.reverse

/-- Lexicographic strict order on character lists, by code point. -/
def chLtList : List Char → List Char → Bool
  | [], [] => false
  | [], _ :: _ => true
  | _ :: _, [] => false
  | a :: as, b :: bs =>
    if a = b then chLtList as bs
    else decide (a.toNat < b.toNat)

/-- Lexicographic strict order on strings, the order `sort` uses. -/
def strLt (a b : String) : Bool := chLtList a.data b.data

/-- `find 'tests' ...` only lists paths inside the `tests` directory. -/
def inTestsTree (f : SrcFile) : Bool :=
  f.dir == "tests" || strBegins f.dir "tests/"

/-- The glob `test_*.py` of the `find -name` filter. -/
def testGlobName (f : SrcFile) : Bool :=
  strBegins f.base "test_" && strEnds f.base ".py"

/-- `find 'tests' -name 'test_*.py'` over the checked-out tree. -/
def findTestFiles (fs : List SrcFile) : List SrcFile :=
  fs.filter (fun f => inTestsTree f && testGlobName f)

/-- `xargs grep -l pat`: keep the files whose text contains the pattern. -/
def grepFilesWith (pat : String) (fs : List SrcFile) : List SrcFile :=
  fs.filter (fun f => f.contents.contains pat)

/-- `xargs dirname`: print the directory of each path. -/
def dirnames (fs : List SrcFile) : List String :=
  fs.map (fun f => f.dir)

/-- Ordered duplicate-dropping insertion, the building block of the
`sort -u` model. -/
def insertUniq (a : String) : List String → List String
  | [] => [a]
  | b :: l =>
    if strLt a b then a :: b :: l
    else if a = b then b :: l
    else b :: insertUniq a l

/-- `sort -u`: emit the input lines sorted with duplicates removed. -/
def sortUniq : List String → List String
  | [] => []
  | a :: l => insertUniq a (sortUniq l)

/-- Step `Gather core test paths`. -/
def gatherCoreTests (fs : List SrcFile) : List String :=
  sortUniq (dirnames (grepFilesWith "def test_" (findTestFiles fs)))

/-- Step `Gather CUDA test paths`. -/
def gatherCudaTests (fs : List SrcFile) : List String :=
  sortUniq (dirnames
    (grepFilesWith "pytest.mark.gpu" (grepFilesWith "def test_" (findTestFiles fs))))

/-- A core test file in the claim's words: a file named `test_*.py` (under
the `tests` tree searched by `find`) whose content contains `def test_`. -/
def isCoreTestFile (f : SrcFile) : Bool :=
  inTestsTree f && testGlobName f && f.contents.contains "def test_"

/-- A CUDA test file in the claim's words: a core test file that
additionally contains `pytest.mark.gpu`. -/
def isCudaTestFile (f : SrcFile) : Bool :=
  isCoreTestFile f && f.contents.contains "pytest.mark.gpu"

/-- The claim's description of the core matrix: the sorted, duplicate-free
list of the directories containing at least one core test file. -/
def coreDirsSpec (fs : List SrcFile) : List String :=
  sortUniq ((fs.map (fun f => f.dir)).filter
    (fun d => fs.any (fun f => f.dir == d && isCoreTestFile f)))

/-- The claim's description of the CUDA matrix: the sorted, duplicate-free
list of the directories containing at least one CUDA test file. -/
def cudaDirsSpec (fs : List SrcFile) : List String :=
  sortUniq ((fs.map (fun f => f.dir)).filter
    (fun d => fs.any (fun f => f.dir == d && isCudaTestFile f)))

lemma char_toNat_inj {a b : Char} (h : a.toNat = b.toNat) : a = b := by
  rw [← Char.ofNat_toNat a, ← Char.ofNat_toNat b, h]

lemma chLtList_irrefl : ∀ l : List Char, chLtList l l = false := by
  intro l
  induction l with
  | nil => rfl
  | cons a as ih => simp [chLtList, ih]

lemma chLtList_asymm : ∀ l₁ l₂ : List Char,
    chLtList l₁ l₂ = true → chLtList l₂ l₁ = false := by
  intro l₁
  induction l₁ with
  | nil =>
    intro l₂ h
    cases l₂ with
    | nil => rfl
    | cons b bs => rfl
  | cons a as ih =>
    intro l₂ h
    cases l₂ with
    | nil => exact absurd h (by simp [chLtList])
    | cons b bs =>
      by_cases hab : a = b
      · subst hab
        simp only [chLtList, if_pos rfl] at h ⊢
        exact ih bs h
      · simp only [chLtList, if_neg hab, decide_eq_true_eq] at h
        have hba : b ≠ a := fun hb => hab hb.symm
        simp only [chLtList, if_neg hba, decide_eq_false_iff_not]
        omega

lemma chLtList_trans : ∀ l₁ l₂ l₃ : List Char,
    chLtList l₁ l₂ = true → chLtList l₂ l₃ = true → chLtList l₁ l₃ = true := by
  intro l₁
  induction l₁ with
  | nil =>
    intro l₂ l₃ h12 h23
    cases l₂ with
    | nil => exact h23
    | cons b bs =>
      cases l₃ with
      | nil => exact absurd h23 (by simp [chLtList])
      | cons c cs => rfl
  | cons a as ih =>
    intro l₂ l₃ h12 h23
    cases l₂ with
    | nil => exact absurd h12 (by simp [chLtList])
    | cons b bs =>
      cases l₃ with
      | nil => exact absurd h23 (by simp [chLtList])
      | cons c cs =>
        by_cases hab : a = b <;> by_cases hbc : b = c
        · subst hab; subst hbc
          simp only [chLtList, if_pos rfl] at h12 h23 ⊢
          exact ih bs cs h12 h23
        · subst hab
          simp only [chLtList, if_pos rfl] at h12
          simpa [chLtList, hbc] using h23
        · subst hbc
          simp only [chLtList, if_pos rfl] at h23
          simpa [chLtList, hab] using h12
        · simp only [chLtList, if_neg hab, decide_eq_true_eq] at h12
          simp only [chLtList, if_neg hbc, decide_eq_true_eq] at h23
          have hac : a ≠ c := by
            intro h
            subst h
            omega
          simp only [chLtList, if_neg hac, decide_eq_true_eq]
          omega

lemma chLtList_connex : ∀ l₁ l₂ : List Char,
    chLtList l₁ l₂ = false → chLtList l₂ l₁ = false → l₁ = l₂ := by
  intro l₁
  induction l₁ with
  | nil =>
    intro l₂ h12 _
    cases l₂ with
    | nil => rfl
    | cons b bs => exact absurd h12 (by simp [chLtList])
  | cons a as ih =>
    intro l₂ h12 h21
    cases l₂ with
    | nil => exact absurd h21 (by simp [chLtList])
    | cons b bs =>
      by_cases hab : a = b
      · subst hab
        simp only [chLtList, if_pos rfl] at h12 h21
        rw [ih bs h12 h21]
      · have hba : b ≠ a := fun hb => hab hb.symm
        simp only [chLtList, if_neg hab, decide_eq_false_iff_not] at h12
        simp only [chLtList, if_neg hba, decide_eq_false_iff_not] at h21
        exact absurd (char_toNat_inj (by omega)) hab

lemma strLt_irrefl (a : String) : strLt a a = false :=
  chLtList_irrefl a.data

lemma strLt_asymm {a b : String} (h : strLt a b = true) : strLt b a = false :=
  chLtList_asymm a.data b.data h

lemma strLt_trans {a b c : String} (h1 : strLt a b = true)
    (h2 : strLt b c = true) : strLt a c = true :=
  chLtList_trans a.data b.data c.data h1 h2

lemma strLt_connex {a b : String} (h1 : strLt a b = false)
    (h2 : strLt b a = false) : a = b := by
  have hd : a.data = b.data := chLtList_connex a.data b.data h1 h2
  cases a
  cases b
  simp only at hd
  rw [hd]

lemma strLt_ne {a b : String} (h : strLt a b = true) : a ≠ b := by
  intro he
  subst he
  rw [strLt_irrefl a] at h
  exact Bool.false_ne_true h

lemma mem_insertUniq {a b : String} {l : List String} :
    a ∈ insertUniq b l ↔ a = b ∨ a ∈ l := by
  induction l with
  | nil => simp [insertUniq]
  | cons c l ih =>
    unfold insertUniq
    split_ifs with h1 h2
    · simp
    · subst h2
      simp only [List.mem_cons]
      tauto
    · simp only [List.mem_cons, ih]
      tauto

lemma sorted_insertUniq {b : String} {l : List String}
    (h : l.Sorted (fun a b => strLt a b = true)) :
    (insertUniq b l).Sorted (fun a b => strLt a b = true) := by
  induction l with
  | nil => simp [insertUniq]
  | cons c l ih =>
    unfold insertUniq
    rcases List.sorted_cons.mp h with ⟨hc, htail⟩
    split_ifs with h1 h2
    · refine List.sorted_cons.mpr ⟨?_, h⟩
      intro x hx
      rcases List.mem_cons.mp hx with rfl | hx2
      · exact h1
      · exact strLt_trans h1 (hc x hx2)
    · exact h
    · have hcb : strLt c b = true := by
        cases hcb0 : strLt c b
        · exact absurd (strLt_connex (Bool.not_eq_true _ |>.mp h1) hcb0).symm
            (fun he => h2 he.symm)
        · rfl
      refine List.sorted_cons.mpr ⟨?_, ih htail⟩
      intro x hx
      rcases mem_insertUniq.mp hx with rfl | hx2
      · exact hcb
      · exact hc x hx2

lemma mem_sortUniq {a : String} {l : List String} :
    a ∈ sortUniq l ↔ a ∈ l := by
  induction l with
  | nil => simp [sortUniq]
  | cons b l ih =>
    unfold sortUniq
    simp only [mem_insertUniq, ih, List.mem_cons]

lemma sorted_sortUniq (l : List String) :
    (sortUniq l).Sorted (fun a b => strLt a b = true) := by
  induction l with
  | nil => simp [sortUniq]
  | cons b l ih => exact sorted_insertUniq ih

lemma nodup_sortUniq (l : List String) : (sortUniq l).Nodup :=
  (sorted_sortUniq l).imp (fun hab => strLt_ne hab)

lemma eq_of_sorted_lt_of_mem_iff {l₁ : List String} :
    ∀ {l₂ : List String}, l₁.Sorted (fun a b => strLt a b = true) →
      l₂.Sorted (fun a b => strLt a b = true) →
      (∀ a, a ∈ l₁ ↔ a ∈ l₂) → l₁ = l₂ := by
  induction l₁ with
  | nil =>
    intro l₂ _ _ h
    cases l₂ with
    | nil => rfl
    | cons b l => exact absurd ((h b).mpr (List.mem_cons_self b l)) (List.not_mem_nil b)
  | cons a l ih =>
    intro l₂ s₁ s₂ h
    cases l₂ with
    | nil => exact absurd ((h a).mp (List.mem_cons_self a l)) (List.not_mem_nil a)
    | cons b l₂ =>
      have hab : a = b := by
        rcases List.mem_cons.mp ((h a).mp (List.mem_cons_self a l)) with h1 | h1
        · exact h1
        · rcases List.mem_cons.mp ((h b).mpr (List.mem_cons_self b l₂)) with h2 | h2
          · exact h2.symm
          · have h3 := List.rel_of_sorted_cons s₁ b h2
            have h4 := List.rel_of_sorted_cons s₂ a h1
            exact absurd h3 (by simp [strLt_asymm h4])
      subst hab
      have htail : ∀ x, x ∈ l ↔ x ∈ l₂ := by
        intro x
        constructor
        · intro hx
          rcases List.mem_cons.mp ((h x).mp (List.mem_cons_of_mem a hx)) with h1 | h1
          · exact absurd (h1 ▸ List.rel_of_sorted_cons s₁ x hx) (by simp [strLt_irrefl])
          · exact h1
        · intro hx
          rcases List.mem_cons.mp ((h x).mpr (List.mem_cons_of_mem a hx)) with h1 | h1
          · exact absurd (h1 ▸ List.rel_of_sorted_cons s₂ x hx) (by simp [strLt_irrefl])
          · exact h1
      rw [ih s₁.of_cons s₂.of_cons htail]

lemma sortUniq_eq_of_mem_iff {l₁ l₂ : List String}
    (h : ∀ a, a ∈ l₁ ↔ a ∈ l₂) : sortUniq l₁ = sortUniq l₂ :=
  eq_of_sorted_lt_of_mem_iff (sorted_sortUniq l₁) (sorted_sortUniq l₂)
    (fun a => (mem_sortUniq.trans (h a)).trans mem_sortUniq.symm)

lemma mem_core_pipeline {fs : List SrcFile} {a : String} :
    a ∈ dirnames (grepFilesWith "def test_" (findTestFiles fs)) ↔
      ∃ f ∈ fs, isCoreTestFile f = true ∧ f.dir = a := by
  simp only [dirnames, grepFilesWith, findTestFiles, List.mem_map,
    List.mem_filter, isCoreTestFile, Bool.and_eq_true]
  constructor
  · rintro ⟨f, ⟨⟨hf, hname⟩, hgrep⟩, hdir⟩
    exact ⟨f, hf, ⟨hname, hgrep⟩, hdir⟩
  · rintro ⟨f, hf, ⟨hname, hgrep⟩, hdir⟩
    exact ⟨f, ⟨⟨hf, hname⟩, hgrep⟩, hdir⟩

lemma mem_cuda_pipeline {fs : List SrcFile} {a : String} :
    a ∈ dirnames (grepFilesWith "pytest.mark.gpu"
        (grepFilesWith "def test_" (findTestFiles fs))) ↔
      ∃ f ∈ fs, isCudaTestFile f = true ∧ f.dir = a := by
  simp only [dirnames, grepFilesWith, findTestFiles, List.mem_map,
    List.mem_filter, isCudaTestFile, isCoreTestFile, Bool.and_eq_true]
  constructor
  · rintro ⟨f, ⟨⟨⟨hf, hname⟩, hgrep⟩, hgpu⟩, hdir⟩
    exact ⟨f, hf, ⟨⟨hname, hgrep⟩, hgpu⟩, hdir⟩
  · rintro ⟨f, hf, ⟨⟨hname, hgrep⟩, hgpu⟩, hdir⟩
    exact ⟨f, ⟨⟨⟨hf, hname⟩, hgrep⟩, hgpu⟩, hdir⟩

lemma mem_dirs_with {fs : List SrcFile} {a : String}
    {p : SrcFile → Bool} :
    a ∈ (fs.map (fun f => f.dir)).filter
        (fun d => fs.any (fun f => f.dir == d && p f)) ↔
      (∃ f ∈ fs, f.dir = a) ∧ ∃ g ∈ fs, g.dir = a ∧ p g = true := by
  simp only [List.mem_filter, List.mem_map, List.any_eq_true,
    Bool.and_eq_true, beq_iff_eq]

lemma gatherCoreTests_eq_spec (fs : List SrcFile) :
    gatherCoreTests fs = coreDirsSpec fs := by
  unfold gatherCoreTests coreDirsSpec
  refine sortUniq_eq_of_mem_iff ?_
  intro a
  rw [mem_core_pipeline, mem_dirs_with]
  constructor
  · rintro ⟨f, hf, hp, hdir⟩
    exact ⟨⟨f, hf, hdir⟩, f, hf, hdir, hp⟩
  · rintro ⟨_, g, hg, hgd, hp⟩
    exact ⟨g, hg, hp, hgd⟩

lemma gatherCudaTests_eq_spec (fs : List SrcFile) :
    gatherCudaTests fs = cudaDirsSpec fs := by
  unfold gatherCudaTests cudaDirsSpec
  refine sortUniq_eq_of_mem_iff ?_
  intro a
  rw [mem_cuda_pipeline, mem_dirs_with]
  constructor
  · rintro ⟨f, hf, hp, hdir⟩
    exact ⟨⟨f, hf, hdir⟩, f, hf, hdir, hp⟩
  · rintro ⟨_, g, hg, hgd, hp⟩
    exact ⟨g, hg, hp, hgd⟩

/-! The matrix jobs spawned from the gathered paths.  `test-core` and
`test-cuda` run one job per matrix entry (`matrix.tests-path` over
`fromJson` of the respective output), each renaming its `.coverage` file
to `.coverage.core.<path with / replaced by .>` (resp. `.cuda.`) and
uploading it to the shared `coverage-<artifact-id>` artifact, which
`get-coverage` downloads and combines. -/

structure MatrixJob where
  testsPath : String
  coverageName : String
deriving DecidableEq, Repr

/-- The shell fragment `echo path | tr "/" .` of the coverage renaming. -/
def trSlashToDot (s : String) : String :=
  s.map (fun c => if c = '/' then '.' else c)

/-- The `test-core` matrix: one job per entry of the core matrix. -/
def testCoreJobs (fs : List SrcFile) : List MatrixJob :=
  (gatherCoreTests fs).map
    (fun p => ⟨p, ".coverage.core." ++ trSlashToDot p⟩)

/-- The `test-cuda` matrix: one job per entry of the CUDA matrix. -/
def testCudaJobs (fs : List SrcFile) : List MatrixJob :=
  (gatherCudaTests fs).map
    (fun p => ⟨p, ".coverage.cuda." ++ trSlashToDot p⟩)

/-- The coverage files `get-coverage` downloads from the shared artifact
and combines with `coverage combine -a .coverage*`: one upload from every
core job and every CUDA job. -/
def combinedCoverages (fs : List SrcFile) : List String :=
  (testCoreJobs fs).map (fun j => j.coverageName) ++
    (testCudaJobs fs).map (fun j => j.coverageName)

/-- C3: for every checked-out tree, the core matrix is exactly the
sorted, duplicate-free list of directories containing a `test_*.py` file
whose content has `def test_`; the CUDA matrix is exactly the sorted,
duplicate-free list of directories containing such a file that also has
`pytest.mark.gpu`; `test-core` and `test-cuda` run one matrix job per
entry of the respective matrix, and `get-coverage` combines one uploaded
coverage file per such job. -/
theorem prep_testbed_matrices (fs : List SrcFile) :
    gatherCoreTests fs = coreDirsSpec fs ∧
    gatherCudaTests fs = cudaDirsSpec fs ∧
    (gatherCoreTests fs).Sorted (fun a b => strLt a b = true) ∧
    (gatherCoreTests fs).Nodup ∧
    (gatherCudaTests fs).Sorted (fun a b => strLt a b = true) ∧
    (gatherCudaTests fs).Nodup ∧
    (testCoreJobs fs).map (fun j => j.testsPath) = gatherCoreTests fs ∧
    (testCudaJobs fs).map (fun j => j.testsPath) = gatherCudaTests fs ∧
    combinedCoverages fs =
      (gatherCoreTests fs).map (fun p => ".coverage.core." ++ trSlashToDot p) ++
      (gatherCudaTests fs).map (fun p => ".coverage.cuda." ++ trSlashToDot p) := by
  refine ⟨gatherCoreTests_eq_spec fs, gatherCudaTests_eq_spec fs,
    sorted_sortUniq _, nodup_sortUniq _, sorted_sortUniq _, nodup_sortUniq _,
    ?_, ?_, ?_⟩
  · unfold testCoreJobs
    rw [List.map_map]
    exact List.map_id _
  · unfold testCudaJobs
    rw [List.map_map]
    exact List.map_id _
  · unfold combinedCoverages testCoreJobs testCudaJobs
    rw [List.map_map, List.map_map]
    rfl

/-- C10: the CUDA matrix is always a subset of the core matrix, because
the CUDA pipeline filters the same files by the further pattern
`pytest.mark.gpu`. -/
theorem cuda_matrix_subset_core (fs : List SrcFile) (d : String)
    (h : d ∈ gatherCudaTests fs) : d ∈ gatherCoreTests fs := by
  unfold gatherCudaTests at h
  unfold gatherCoreTests
  rw [mem_sortUniq] at h ⊢
  rw [mem_cuda_pipeline] at h
  rw [mem_core_pipeline]
  rcases h with ⟨f, hf, hp, hdir⟩
  exact ⟨f, hf, (Bool.and_eq_true _ _ |>.mp hp).1, hdir⟩

/-- Witness for C10: a concrete tree with one GPU test file, whose
directory shows up in both matrices. -/
theorem cuda_matrix_subset_core_witness :
    "tests/gpu" ∈ gatherCudaTests
        [⟨"tests/gpu", "test_cuda.py", ["def test_", "pytest.mark.gpu"]⟩,
         ⟨"tests/unit", "test_basic.py", ["def test_"]⟩] ∧
    "tests/gpu" ∈ gatherCoreTests
        [⟨"tests/gpu", "test_cuda.py", ["def test_", "pytest.mark.gpu"]⟩,
         ⟨"tests/unit", "test_basic.py", ["def test_"]⟩] := by
  refine ⟨by decide, ?_⟩
  exact cuda_matrix_subset_core _ "tests/gpu" (by decide)

/-! ### Workflow triggers and external checkouts

`ci.yml` and `remote-ci.yml` transcribed as data: the `on:` triggers of
each workflow and, per job, its checkout steps (the repository checked out
and the `ref:` expression, when given). -/

inductive WTrigger
  | push
  | repositoryDispatch (types : List String)
deriving DecidableEq, Repr

inductive RefExpr
  | clientPayloadBranch
deriving DecidableEq, Repr

structure CheckoutStep where
  repository : Option String := none
  ref : Option RefExpr := none
deriving DecidableEq, Repr

structure WfJob where
  jobName : String
  checkouts : List CheckoutStep
deriving DecidableEq, Repr

structure Workflow where
  triggers : List WTrigger
  jobs : List WfJob
deriving DecidableEq, Repr

/-- The checkout step shared by the jobs of `remote-ci.yml` that work on
the external repository: `actions/checkout@v3` with
`repository: jina-ai/finetuner-core` and
`ref: github.event.client_payload.branch`. -/
def coreCheckout : CheckoutStep :=
  { repository := some "jina-ai/finetuner-core",
    ref := some RefExpr.clientPayloadBranch }

/-- `ci.yml`: triggered `on: [push]`; its jobs only check out this
repository itself. -/
def ciWorkflow : Workflow :=
  { triggers := [WTrigger.push],
    jobs :=
      [⟨"check-codestyle", [{}]⟩,
       ⟨"run-tests", [{}]⟩,
       ⟨"success-all-test", []⟩] }

/-- `remote-ci.yml`: triggered `on: repository_dispatch` with
`types: [triggered_from_core]`; each job except the gate checks out this
repository and then `jina-ai/finetuner-core` at the dispatched ref. -/
def remoteCiWorkflow : Workflow :=
  { triggers := [WTrigger.repositoryDispatch ["triggered_from_core"]],
    jobs :=
      [⟨"style-flake", [{}, coreCheckout]⟩,
       ⟨"style-black", [{}, coreCheckout]⟩,
       ⟨"style-isort", [{}, coreCheckout]⟩,
       ⟨"prep-testbed", [{}, coreCheckout]⟩,
       ⟨"test-core", [{}, coreCheckout]⟩,
       ⟨"test-cuda", [{}, coreCheckout]⟩,
       ⟨"get-coverage", [{}, coreCheckout]⟩,
       ⟨"success-tests", []⟩] }

/-- C5: `ci.yml` is triggered exactly by push events, `remote-ci.yml`
exactly by `repository_dispatch` events of type `triggered_from_core`, and
every checkout of `jina-ai/finetuner-core` in any job of `remote-ci.yml`
uses the single ref `github.event.client_payload.branch`. -/
theorem workflow_triggers_and_checkouts :
    ciWorkflow.triggers = [WTrigger.push] ∧
    remoteCiWorkflow.triggers =
      [WTrigger.repositoryDispatch ["triggered_from_core"]] ∧
    (remoteCiWorkflow.jobs.all fun j =>
      j.checkouts.all fun c =>
        c.repository != some "jina-ai/finetuner-core" ||
          c.ref == some RefExpr.clientPayloadBranch) = true ∧
    (remoteCiWorkflow.jobs.all fun j =>
      j.jobName == "success-tests" ||
        j.checkouts.contains coreCheckout) = true := by
  refine ⟨rfl, rfl, ?_, ?_⟩ <;> decide

/-! ### API-call sequences of the notebooks

The external API calls performed by the executed code cells of each
notebook, transcribed in execution order.  `DocumentArray.pull` counts as
`pull`, `run.stream_logs` as `streamLogs`, `run.save_artifact` as
`saveArtifact`, `finetuner.get_model` as `getModel`,
`finetuner.build_model` as `buildModel`, `finetuner.encode` as `encode`
and `DocumentArray.match` as `matchOp`. -/

inductive ApiOp
  | login
  | pull
  | fit
  | streamLogs
  | saveArtifact
  | getModel
  | buildModel
  | encode
  | matchOp
deriving DecidableEq, Repr

/-- Multilingual CLIP notebook: login; four pulls; fit; stream_logs;
save_artifact; two get_model; two encode.  Its `match` calls appear only
inside a markdown documentation block, not in an executed code cell. -/
def mclipOps : List ApiOp :=
  [ApiOp.login, ApiOp.pull, ApiOp.pull, ApiOp.pull, ApiOp.pull, ApiOp.fit,
   ApiOp.streamLogs, ApiOp.saveArtifact, ApiOp.getModel, ApiOp.getModel,
   ApiOp.encode, ApiOp.encode]

/-- CLIP notebook: login; four pulls; fit; stream_logs; save_artifact;
two get_model; two encode.  Its `match` calls likewise appear only in a
markdown documentation block. -/
def clipOps : List ApiOp :=
  [ApiOp.login, ApiOp.pull, ApiOp.pull, ApiOp.pull, ApiOp.pull, ApiOp.fit,
   ApiOp.streamLogs, ApiOp.saveArtifact, ApiOp.getModel, ApiOp.getModel,
   ApiOp.encode, ApiOp.encode]

/-- PointNet++ notebook: login; three pulls; fit; stream_logs;
save_artifact; get_model; two encodes; match; then the zero-shot
comparison cells: build_model; two encodes; match. -/
def pointnetOps : List ApiOp :=
  [ApiOp.login, ApiOp.pull, ApiOp.pull, ApiOp.pull, ApiOp.fit,
   ApiOp.streamLogs, ApiOp.saveArtifact, ApiOp.getModel, ApiOp.encode,
   ApiOp.encode, ApiOp.matchOp, ApiOp.buildModel, ApiOp.encode,
   ApiOp.encode, ApiOp.matchOp]

/-- BERT notebook: login; three pulls; fit; stream_logs; save_artifact;
get_model; two encodes; match. -/
def bertOps : List ApiOp :=
  [ApiOp.login, ApiOp.pull, ApiOp.pull, ApiOp.pull, ApiOp.fit,
   ApiOp.streamLogs, ApiOp.saveArtifact, ApiOp.getModel, ApiOp.encode,
   ApiOp.encode, ApiOp.matchOp]

/-- ResNet50 notebook: login; three pulls; fit; stream_logs;
save_artifact; get_model; two encodes; match. -/
def resnetOps : List ApiOp :=
  [ApiOp.login, ApiOp.pull, ApiOp.pull, ApiOp.pull, ApiOp.fit,
   ApiOp.streamLogs, ApiOp.saveArtifact, ApiOp.getModel, ApiOp.encode,
   ApiOp.encode, ApiOp.matchOp]

/-- The order the claim asserts for the calls, as a rank.  `getModel` and
`buildModel` share the rank of the model-loading stage. -/
def opRank : ApiOp → Nat
  | ApiOp.login => 0
  | ApiOp.pull => 1
  | ApiOp.fit => 2
  | ApiOp.streamLogs => 3
  | ApiOp.saveArtifact => 4
  | ApiOp.getModel => 5
  | ApiOp.buildModel => 5
  | ApiOp.encode => 6
  | ApiOp.matchOp => 7

/-- Whether a call sequence never goes backwards in the claimed order. -/
def ranksMonotone : List ApiOp → Bool
  | [] => true
  | [_] => true
  | a :: b :: rest => decide (opRank a ≤ opRank b) && ranksMonotone (b :: rest)

/-- The claim read literally: the notebook performs login, pull, fit,
stream_logs, save_artifact, get_model (or build_model), encode and
finally match, in this relative order and never out of it. -/
def followsClaimedSequence (l : List ApiOp) : Bool :=
  ranksMonotone l &&
  l.contains ApiOp.login && l.contains ApiOp.pull && l.contains ApiOp.fit &&
  l.contains ApiOp.streamLogs && l.contains ApiOp.saveArtifact &&
  (l.contains ApiOp.getModel || l.contains ApiOp.buildModel) &&
  l.contains ApiOp.encode && l.contains ApiOp.matchOp

/-- The core calls every notebook shares. -/
def coreCall (o : ApiOp) : Bool :=
  o == ApiOp.login || o == ApiOp.pull || o == ApiOp.fit ||
    o == ApiOp.streamLogs || o == ApiOp.saveArtifact || o == ApiOp.getModel

/-- Every encode call comes after a get_model or build_model call. -/
def encodesAfterModelLoad : List ApiOp → Bool → Bool
  | [], _ => true
  | o :: rest, seen =>
    if o == ApiOp.encode && !seen then false
    else encodesAfterModelLoad rest
      (seen || o == ApiOp.getModel || o == ApiOp.buildModel)

/-- Every match call comes after an encode call. -/
def matchesAfterEncode : List ApiOp → Bool → Bool
  | [], _ => true
  | o :: rest, seen =>
    if o == ApiOp.matchOp && !seen then false
    else matchesAfterEncode rest (seen || o == ApiOp.encode)

/-- The amended sequencing property: the shared calls login, pull, fit,
stream_logs, save_artifact, get_model appear in the claimed relative
order; every encode follows a model load and every match follows an
encode. -/
def followsAmendedSequence (l : List ApiOp) : Bool :=
  ranksMonotone (l.filter coreCall) &&
  l.contains ApiOp.login && l.contains ApiOp.pull && l.contains ApiOp.fit &&
  l.contains ApiOp.streamLogs && l.contains ApiOp.saveArtifact &&
  l.contains ApiOp.getModel && l.contains ApiOp.encode &&
  encodesAfterModelLoad l false && matchesAfterEncode l false

/-- Counterexample to C6: the multilingual CLIP notebook never calls
match in an executed code cell, and the PointNet++ notebook calls
build_model (and further encodes) after its first match, out of the
claimed order; so not every notebook performs the claimed sequence. -/
theorem notebook_sequence_counterexample :
    followsClaimedSequence mclipOps = false ∧
    followsClaimedSequence pointnetOps = false ∧
    mclipOps.contains ApiOp.matchOp = false ∧
    ranksMonotone pointnetOps = false := by
  refine ⟨?_, ?_, ?_, ?_⟩ <;> decide

/-- C6 amended: every notebook performs login, pull, fit, stream_logs,
save_artifact and get_model in this relative order, with every encode
after a model load and every match after an encode; match itself is
performed in executed cells only by the PointNet++, BERT and ResNet50
notebooks (the PointNet++ notebook repeating build_model, encode, match
for a zero-shot comparison after its first match). -/
theorem notebook_sequences_amended :
    followsAmendedSequence mclipOps = true ∧
    followsAmendedSequence clipOps = true ∧
    followsAmendedSequence pointnetOps = true ∧
    followsAmendedSequence bertOps = true ∧
    followsAmendedSequence resnetOps = true ∧
    mclipOps.contains ApiOp.matchOp = false ∧
    clipOps.contains ApiOp.matchOp = false ∧
    pointnetOps.contains ApiOp.matchOp = true ∧
    bertOps.contains ApiOp.matchOp = true ∧
    resnetOps.contains ApiOp.matchOp = true := by
  refine ⟨?_, ?_, ?_, ?_, ?_, ?_, ?_, ?_, ?_, ?_⟩ <;> decide

/-! ### The log-monitoring loop of the notebooks

Every notebook monitors its run with the single loop

  for entry in run.stream_logs():
      print(entry)

`run.stream_logs()` is implemented in the external client; it is modelled
as the sequence of log lines the server emits while the run has not yet
reached a terminal status. -/

structure LogEvent where
  status : RunStatus
  line : String
deriving DecidableEq, Repr

/-- An event of a run that is still in a non-terminal status. -/
def nonTerminalEvent (e : LogEvent) : Bool := !terminalStatus e.status

/-- Modelled from the spec: `run.stream_logs()` yields each log entry in
arrival order and ends exactly when the run reaches FINISHED or FAILED.
The streaming client is external to this repository. -/
def streamLogs (events : List LogEvent) : List String :=
  (events.takeWhile nonTerminalEvent).map (fun e => e.line)

/-- The body of the notebook loop: print every streamed entry, one by
one, in order. -/
def monitorLoopPrints : List String → List String
  | [] => []
  | s :: rest => s :: monitorLoopPrints rest

/-- The whole monitoring cell: iterate over `run.stream_logs()` printing
each entry. -/
def monitorLoop (events : List LogEvent) : List String :=
  monitorLoopPrints (streamLogs events)

lemma monitorLoopPrints_id (l : List String) : monitorLoopPrints l = l := by
  induction l with
  | nil => rfl
  | cons s rest ih => simp [monitorLoopPrints, ih]

lemma streamLogs_stops (es₁ : List LogEvent) (e : LogEvent)
    (es₂ : List LogEvent)
    (h1 : ∀ x ∈ es₁, terminalStatus x.status = false)
    (h2 : terminalStatus e.status = true) :
    streamLogs (es₁ ++ e :: es₂) = es₁.map (fun x => x.line) := by
  induction es₁ with
  | nil => simp [streamLogs, List.takeWhile_cons, nonTerminalEvent, h2]
  | cons a as ih =>
    have ha := h1 a (List.mem_cons_self a as)
    have ih2 := ih (fun x hx => h1 x (List.mem_cons_of_mem a hx))
    simp only [List.cons_append, streamLogs, List.takeWhile_cons,
      nonTerminalEvent, ha, Bool.not_false, if_true, List.map_cons,
      List.map, List.cons.injEq, true_and] at ih2 ⊢
    exact ih2

/-- C7: the monitoring loop prints exactly the streamed entries, in
arrival order and each exactly once; it terminates exactly when the run
reaches a terminal status — everything emitted before the first terminal
event is printed and nothing after it — and when the stream contains no
terminal event every entry is printed. -/
theorem stream_logs_monitoring (events es₁ es₂ : List LogEvent)
    (e : LogEvent)
    (h1 : ∀ x ∈ es₁, terminalStatus x.status = false)
    (h2 : terminalStatus e.status = true) :
    monitorLoop events = streamLogs events ∧
    monitorLoop (es₁ ++ e :: es₂) = es₁.map (fun x => x.line) ∧
    ((∀ x ∈ events, terminalStatus x.status = false) →
      monitorLoop events = events.map (fun x => x.line)) := by
  refine ⟨monitorLoopPrints_id _, ?_, ?_⟩
  · rw [monitorLoop, monitorLoopPrints_id, streamLogs_stops es₁ e es₂ h1 h2]
  · intro hall
    rw [monitorLoop, monitorLoopPrints_id, streamLogs,
      List.takeWhile_eq_self_iff.mpr]
    intro x hx
    simp [nonTerminalEvent, hall x hx]

/-- Witness for C7: a concrete stream with one progress entry, then a
FINISHED event, then a late entry; the loop prints exactly the progress
entry. -/
theorem stream_logs_monitoring_witness :
    monitorLoop [⟨RunStatus.started, "epoch 1"⟩] =
      streamLogs [⟨RunStatus.started, "epoch 1"⟩] ∧
    monitorLoop ([⟨RunStatus.started, "epoch 1"⟩] ++
        ⟨RunStatus.finished, "done"⟩ :: [⟨RunStatus.finished, "late"⟩]) =
      ([⟨RunStatus.started, "epoch 1"⟩] : List LogEvent).map
        (fun x => x.line) ∧
    ((∀ x ∈ [(⟨RunStatus.started, "epoch 1"⟩ : LogEvent)],
        terminalStatus x.status = false) →
      monitorLoop [⟨RunStatus.started, "epoch 1"⟩] =
        ([⟨RunStatus.started, "epoch 1"⟩] : List LogEvent).map
          (fun x => x.line)) :=
  stream_logs_monitoring [⟨RunStatus.started, "epoch 1"⟩]
    [⟨RunStatus.started, "epoch 1"⟩] [⟨RunStatus.finished, "late"⟩]
    ⟨RunStatus.finished, "done"⟩ (by decide) (by decide)

/-! ### Name binding in the PointNet++ notebook

The executed statements of the PointNet++ notebook, transcribed as the
global names each statement reads and binds.  A statement whose read
names are not all bound raises `NameError` naming the first unbound one;
otherwise its bindings extend the environment. -/

structure PyStmt where
  reads : List String
  writes : List String
deriving DecidableEq, Repr

/-- Run statements in order over an environment of bound names: the
first read of an unbound name stops execution with a `NameError` carrying
that name, and each completed statement adds its bindings. -/
def runStmts : List PyStmt → List String → Except String (List String)
  | [], env => Except.ok env
  | s :: rest, env =>
    match s.reads.find? (fun n => !env.contains n) with
    | some n => Except.error n
    | none => runStmts rest (env ++ s.writes)

/-- The statements of the PointNet++ notebook cells before the inference
cell: imports and login; three `DocumentArray.pull` assignments and
`train_data.summary()`; `index_data[0].display()`; the
`EvaluationCallback` import and the `finetuner.fit` assignment to `run`;
the `stream_logs` loop; the `save_artifact` assignment to `artifact`. -/
def pointnetSetupStmts : List PyStmt :=
  [⟨[], ["finetuner"]⟩,
   ⟨[], ["DocumentArray", "Document"]⟩,
   ⟨["finetuner"], []⟩,
   ⟨["DocumentArray"], ["train_data"]⟩,
   ⟨["DocumentArray"], ["query_data"]⟩,
   ⟨["DocumentArray"], ["index_data"]⟩,
   ⟨["train_data"], []⟩,
   ⟨["index_data"], []⟩,
   ⟨[], ["EvaluationCallback"]⟩,
   ⟨["finetuner", "EvaluationCallback"], ["run"]⟩,
   ⟨["run"], ["entry"]⟩,
   ⟨["run"], ["artifact"]⟩]

/-- The names bound after the setup cells. -/
def pointnetSetupBound : List String :=
  ["finetuner", "DocumentArray", "Document", "train_data", "query_data",
   "index_data", "EvaluationCallback", "run", "entry", "artifact"]

/-- The inference cell of the PointNet++ notebook:
`model = finetuner.get_model(artifact=artifact, device='cuda')`, two
`finetuner.encode(...)` calls, then
`assert query.embeddings.shape == (1, 512)`, whose first action is to
read the name `query`. -/
def pointnetInferenceStmts : List PyStmt :=
  [⟨["finetuner", "artifact"], ["model"]⟩,
   ⟨["finetuner", "model", "query_data"], []⟩,
   ⟨["finetuner", "model", "index_data"], []⟩,
   ⟨["query"], []⟩]

/-- Counterexample to C8 as stated: the setup cells bind `run` (among
others), so it is not the case that only `query_data`, `index_data`,
`train_data` and `model` are bound by the earlier code. -/
theorem pointnet_only_bound_list_counterexample :
    runStmts pointnetSetupStmts [] = Except.ok pointnetSetupBound ∧
    pointnetSetupBound.contains "run" = true ∧
    (["query_data", "index_data", "train_data", "model"] :
      List String).contains "run" = false := by
  refine ⟨rfl, ?_, ?_⟩ <;> decide

/-- C8 amended: the setup cells bind `finetuner`, `DocumentArray`,
`Document`, `train_data`, `query_data`, `index_data`,
`EvaluationCallback`, `run`, `entry` and `artifact` — never `query` — the
inference cell adds only `model`, its first three statements succeed, and
the assert then raises `NameError` for `query` before any shape is
compared. -/
theorem pointnet_inference_assert_name_error :
    runStmts pointnetSetupStmts [] = Except.ok pointnetSetupBound ∧
    pointnetSetupBound.contains "query" = false ∧
    (["query_data", "index_data", "train_data"] : List String).all
      (fun n => pointnetSetupBound.contains n) = true ∧
    runStmts (pointnetInferenceStmts.take 3) pointnetSetupBound =
      Except.ok (pointnetSetupBound ++ ["model"]) ∧
    runStmts pointnetInferenceStmts pointnetSetupBound =
      Except.error "query" := by
  refine ⟨rfl, ?_, ?_, rfl, rfl⟩ <;> decide

/-! ### plot_matches in the multilingual CLIP notebook

The helper iterates `enumerate(zip(pt_query, ft_query))`, breaks once the
enumeration index reaches `num_samples`, skips queries whose text is in
`seen` (executing `i = i - 1` before `continue`), records the text in
`seen` and prints the results for the query.  A query is represented by
the text of its pt-side document, the value printed and recorded. -/

def plotMatchesAux (ns : Nat) :
    List (String × String) → Nat → List String → List String
  | [], _, _ => []
  | q :: rest, i, seen =>
    if ns ≤ i then []
    else if q.1 ∈ seen then
      plotMatchesAux ns rest (i + 1) seen
    else
      q.1 :: plotMatchesAux ns rest (i + 1) (q.1 :: seen)

/-- The printed query texts of `plot_matches(num_samples)`. -/
def plotMatches (ns : Nat) (ptQuery ftQuery : List String) : List String :=
  plotMatchesAux ns (ptQuery.zip ftQuery) 0 []

/-- The loop with the `i = i - 1` store modelled literally: the variable
`i` is threaded through the iterations, the skip branch stores `i - 1` in
it, and `enumerate` rebinds it to the enumeration index at each loop
head, so the stored value is never read. -/
def plotMatchesLiteralAux (ns : Nat) :
    List (String × String) → Nat → Int → List String → List String
  | [], _, _, _ => []
  | q :: rest, k, _iVar, seen =>
    if (ns : Int) ≤ (k : Int) then []
    else if q.1 ∈ seen then
      plotMatchesLiteralAux ns rest (k + 1) ((k : Int) - 1) seen
    else
      q.1 :: plotMatchesLiteralAux ns rest (k + 1) (k : Int) (q.1 :: seen)

/-- `plot_matches` with the dead store executed. -/
def plotMatchesLiteral (ns : Nat) (ptQuery ftQuery : List String) :
    List String :=
  plotMatchesLiteralAux ns (ptQuery.zip ftQuery) 0 0 []

lemma plotMatchesAux_length (ns : Nat) :
    ∀ (l : List (String × String)) (i : Nat) (seen : List String),
      (plotMatchesAux ns l i seen).length ≤ ns - i := by
  intro l
  induction l with
  | nil => intro i seen; simp [plotMatchesAux]
  | cons q rest ih =>
    intro i seen
    unfold plotMatchesAux
    split_ifs with h1 h2
    · simp
    · have := ih (i + 1) seen
      omega
    · simp only [List.length_cons]
      have := ih (i + 1) (q.1 :: seen)
      omega

lemma plotMatchesAux_nodup (ns : Nat) :
    ∀ (l : List (String × String)) (i : Nat) (seen : List String),
      (∀ a ∈ plotMatchesAux ns l i seen, a ∉ seen) ∧
        (plotMatchesAux ns l i seen).Nodup := by
  intro l
  induction l with
  | nil => intro i seen; simp [plotMatchesAux]
  | cons q rest ih =>
    intro i seen
    unfold plotMatchesAux
    split_ifs with h1 h2
    · simp
    · exact ih (i + 1) seen
    · obtain ⟨hnotin, hnodup⟩ := ih (i + 1) (q.1 :: seen)
      constructor
      · intro a ha
        rcases List.mem_cons.mp ha with rfl | ha2
        · exact h2
        · exact fun hc => hnotin a ha2 (List.mem_cons_of_mem _ hc)
      · refine List.nodup_cons.mpr ⟨?_, hnodup⟩
        intro hc
        exact hnotin q.1 hc (List.mem_cons_self _ _)

lemma plotMatchesLiteralAux_eq (ns : Nat) :
    ∀ (l : List (String × String)) (k : Nat) (iv : Int) (seen : List String),
      plotMatchesLiteralAux ns l k iv seen = plotMatchesAux ns l k seen := by
  intro l
  induction l with
  | nil => intro k iv seen; rfl
  | cons q rest ih =>
    intro k iv seen
    unfold plotMatchesLiteralAux plotMatchesAux
    simp only [Nat.cast_le]
    split_ifs with h1 h2
    · rfl
    · exact ih (k + 1) ((k : Int) - 1) seen
    · rw [ih (k + 1) (k : Int) (q.1 :: seen)]

/-- C9: for every `num_samples` and every pair of query lists,
`plot_matches` prints results for at most `num_samples` queries, never
prints the same query text twice, and the `i = i - 1` store before
`continue` has no effect: the loop with the store executed produces the
same output as the loop without it. -/
theorem plot_matches_behaviour (ns : Nat) (ptQuery ftQuery : List String) :
    (plotMatches ns ptQuery ftQuery).length ≤ ns ∧
    (plotMatches ns ptQuery ftQuery).Nodup ∧
    plotMatchesLiteral ns ptQuery ftQuery = plotMatches ns ptQuery ftQuery := by
  refine ⟨?_, ?_, ?_⟩
  · have := plotMatchesAux_length ns (ptQuery.zip ftQuery) 0 []
    simpa [plotMatches] using this
  · exact (plotMatchesAux_nodup ns (ptQuery.zip ftQuery) 0 []).2
  · exact plotMatchesLiteralAux_eq ns (ptQuery.zip ftQuery) 0 0 []

/-! ### Encoding one document with a selected CLIP sub-model

The CLIP and multilingual CLIP notebooks select the `clip-text` sub-model
from a fine-tuned CLIP artifact, encode a one-document `DocumentArray`
and print `text_da.embeddings.shape`, documented as `(1, 512)`.  The
encoder itself is part of the external client. -/

structure NbDocument where
  text : String
deriving DecidableEq, Repr

structure EmbModel where
  modelName : String
  outputDim : Nat
deriving DecidableEq, Repr

/-- Modelled from the spec: a fine-tuned CLIP artifact contains the two
sub-models `clip-text` and `clip-vision`, each a 512-dimensional encoder.
The artifact format is owned by the external service. -/
def clipArtifactModels : List EmbModel :=
  [⟨"clip-text", 512⟩, ⟨"clip-vision", 512⟩]

/-- Modelled from the spec: `finetuner.get_model(artifact, select_model)`
selects the named sub-model of the artifact. -/
def getModel (models : List EmbModel) (selectModel : String) :
    Option EmbModel :=
  models.find? (fun m => m.modelName == selectModel)

/-- Modelled from the spec: `finetuner.encode(model, data)` computes one
embedding per document, so the embeddings array of the encoded
`DocumentArray` has shape (number of documents, model output dim). -/
def encodeShape (m : EmbModel) (da : List NbDocument) : Nat × Nat :=
  (da.length, m.outputDim)

/-- C4: encoding a `DocumentArray` holding exactly one document with the
`clip-text` sub-model selected from a fine-tuned CLIP artifact yields an
embeddings array of shape (1, 512). -/
theorem encode_single_document_shape (da : List NbDocument)
    (hda : da.length = 1) (m : EmbModel)
    (hm : getModel clipArtifactModels "clip-text" = some m) :
    encodeShape m da = (1, 512) := by
  have hm2 : m = ⟨"clip-text", 512⟩ := by
    have : getModel clipArtifactModels "clip-text" =
        some ⟨"clip-text", 512⟩ := rfl
    rw [this] at hm
    exact (Option.some_inj.mp hm).symm
  rw [hm2, encodeShape, hda]

/-- Witness for C4: the concrete one-document array of the multilingual
CLIP notebook and the selected clip-text encoder. -/
theorem encode_single_document_shape_witness :
    encodeShape ⟨"clip-text", 512⟩ [⟨"setwas Text zum Codieren"⟩] =
      (1, 512) :=
  encode_single_document_shape [⟨"setwas Text zum Codieren"⟩] rfl
    ⟨"clip-text", 512⟩ rfl

end Finetuner
